import Mathlib

/-!
Verification of the metadata resolution and invocation engine of the `az-rs`
repository against its natural-language specification.

The development shallowly embeds the relevant parts of the source:

* `src/cmd.rs` — `ResourceId` and `ResourceId::validate_pattern`;
* `src/api/metadata_command.rs` — the `Command`/`Operation`/`Schema`/`Condition`
  data model, `Command::match_operator`, `Command::match_condition`,
  `Command::select_operation_by_cond`;
* `src/api/metadata_index.rs` — the command index and
  `Index::locate_command_file`;
* `src/api/invoke.rs` — body building (`BodyBuilder::build_body`,
  `BodyBuilder::build_value`), query construction and response routing inside
  `OperationInvocation::invoke`.

Rust `ArgMatches` is modelled as an association list from argument keys to
string values.  `serde_json::Value` is modelled by the inductive `JValue` and
`serde_json::from_str` by the executable `parseJson` (covering the integer
fragment of JSON, sufficient for all inputs appearing in this development).
Rust panics (`unreachable!`) are modelled by an outer `Option` layer (`none` =
panic) and recoverable `anyhow` errors by `Except String`.
-/

namespace AzRs

/-- Model of `clap::ArgMatches`: an association list from argument key to the
bound string value.  A key is "bound" iff it occurs in the list. -/
abbrev ArgMatches := List (String × String)

/-- Model of `ArgMatches::get_one::<String>` / `get_raw` presence. -/
def getOne (m : ArgMatches) (k : String) : Option String :=
  List.lookup k m

/-! ## JSON values (model of `serde_json::Value`) -/

inductive JValue where
  | null : JValue
  | bool (b : Bool) : JValue
  | num (n : Int) : JValue
  | str (s : String) : JValue
  | arr (elems : List JValue) : JValue
  | obj (fields : List (String × JValue)) : JValue
deriving Repr

/-! ## A JSON parser (model of `serde_json::from_str`)

Covers JSON with integer numbers; fractional and exponent forms as well as
`\u` string escapes are outside the model (the parser rejects them, and no
theorem below depends on inputs using them). -/

def quoteChar : Char := Char.ofNat 34

def backslashChar : Char := Char.ofNat 92

def lbraceChar : Char := Char.ofNat 123

def rbraceChar : Char := Char.ofNat 125

def isWsChar (c : Char) : Bool :=
  c = ' ' || c = '\n' || c = '\t' || c = '\r'

def skipWs : List Char → List Char
  | [] => []
  | c :: cs => if isWsChar c then skipWs cs else c :: cs

/-- Decode one string escape character (the common single-character escapes). -/
def escChar (c : Char) : Option Char :=
  if c = quoteChar then some quoteChar
  else if c = backslashChar then some backslashChar
  else if c = '/' then some '/'
  else if c = 'n' then some '\n'
  else if c = 't' then some '\t'
  else if c = 'r' then some '\r'
  else if c = 'b' then some (Char.ofNat 8)
  else if c = 'f' then some (Char.ofNat 12)
  else none

/-- Parse the body of a JSON string after the opening quote; returns the
decoded characters and the remainder after the closing quote. -/
def parseStrChars : List Char → Option (List Char × List Char)
  | [] => none
  | c :: cs =>
    if c = quoteChar then some ([], cs)
    else if c = backslashChar then
      match cs with
      | [] => none
      | e :: cs' =>
        match escChar e with
        | none => none
        | some d =>
          match parseStrChars cs' with
          | none => none
          | some (out, rest) => some (d :: out, rest)
    else
      match parseStrChars cs with
      | none => none
      | some (out, rest) => some (c :: out, rest)

def takeDigits : List Char → (List Char × List Char)
  | [] => ([], [])
  | c :: cs =>
    if c.isDigit then
      let (ds, rest) := takeDigits cs
      (c :: ds, rest)
    else ([], c :: cs)

def digitsToNat (ds : List Char) : Nat :=
  ds.foldl (fun acc c => acc * 10 + (c.toNat - 48)) 0

/-- Parse a JSON integer (optional minus sign, then digits).  Rejects inputs
continuing with a fraction or exponent (outside the model). -/
def parseNum (cs : List Char) : Option (JValue × List Char) :=
  let (neg, cs') :=
    match cs with
    | '-' :: rest => (true, rest)
    | rest => (false, rest)
  let (ds, rest) := takeDigits cs'
  if ds.isEmpty then none
  else
    match rest with
    | '.' :: _ => none
    | 'e' :: _ => none
    | 'E' :: _ => none
    | _ =>
      let n : Int := Int.ofNat (digitsToNat ds)
      some (JValue.num (if neg then -n else n), rest)

mutual

def parseVal : Nat → List Char → Option (JValue × List Char)
  | 0, _ => none
  | Nat.succ fuel, cs =>
    match skipWs cs with
    | 'n' :: 'u' :: 'l' :: 'l' :: rest => some (JValue.null, rest)
    | 't' :: 'r' :: 'u' :: 'e' :: rest => some (JValue.bool true, rest)
    | 'f' :: 'a' :: 'l' :: 's' :: 'e' :: rest => some (JValue.bool false, rest)
    | c :: rest =>
      if c = quoteChar then
        match parseStrChars rest with
        | none => none
        | some (out, rest') => some (JValue.str (String.mk out), rest')
      else if c = '[' then
        match skipWs rest with
        | ']' :: rest' => some (JValue.arr [], rest')
        | rest' =>
          match parseVal fuel rest' with
          | none => none
          | some (v, rest'') => parseArrItems fuel [v] rest''
      else if c = lbraceChar then
        match skipWs rest with
        | d :: rest' =>
          if d = rbraceChar then some (JValue.obj [], rest')
          else
            match parseMember fuel (d :: rest') with
            | none => none
            | some (kv, rest'') => parseObjItems fuel [kv] rest''
        | [] => none
      else
        parseNum (c :: rest)
    | [] => none

def parseArrItems : Nat → List JValue → List Char → Option (JValue × List Char)
  | 0, _, _ => none
  | Nat.succ fuel, acc, cs =>
    match skipWs cs with
    | ',' :: rest =>
      match parseVal fuel rest with
      | none => none
      | some (v, rest') => parseArrItems fuel (v :: acc) rest'
    | ']' :: rest => some (JValue.arr acc.reverse, rest)
    | _ => none

def parseMember : Nat → List Char → Option ((String × JValue) × List Char)
  | 0, _ => none
  | Nat.succ fuel, cs =>
    match skipWs cs with
    | c :: rest =>
      if c = quoteChar then
        match parseStrChars rest with
        | none => none
        | some (key, rest') =>
          match skipWs rest' with
          | ':' :: rest'' =>
            match parseVal fuel rest'' with
            | none => none
            | some (v, rest''') => some ((String.mk key, v), rest''')
          | _ => none
      else none
    | [] => none

def parseObjItems : Nat → List (String × JValue) → List Char →
    Option (JValue × List Char)
  | 0, _, _ => none
  | Nat.succ fuel, acc, cs =>
    match skipWs cs with
    | ',' :: rest =>
      match parseMember fuel rest with
      | none => none
      | some (kv, rest') => parseObjItems fuel (kv :: acc) rest'
    | c :: rest =>
      if c = rbraceChar then some (JValue.obj acc.reverse, rest)
      else none
    | [] => none

end

/-- Model of `serde_json::from_str::<serde_json::Value>`: parse a complete
JSON document (trailing whitespace allowed). -/
def parseJson (s : String) : Option JValue :=
  match parseVal (2 * s.length + 2) s.data with
  | some (v, rest) => if skipWs rest = [] then some v else none
  | none => none

/-! ## `src/cmd.rs`: `ResourceId` -/

/-- `Method` from `src/api/metadata_command.rs`. -/
inductive Method where
  | head | get | put | patch | post | delete
deriving DecidableEq, Repr

/-- `ResourceId` from `src/cmd.rs`: a wrapper around the identifier string. -/
structure ResourceId where
  val : String
deriving Repr

/-- `impl From<S> for ResourceId`: strips all trailing `/` characters
(`trim_end_matches('/')`). -/
def ResourceId.fromString (s : String) : ResourceId :=
  ⟨String.mk ((s.data.reverse.dropWhile (fun c => c = '/')).reverse)⟩

/-- The string `\x7b` (an opening brace). -/
def lbraceStr : String := String.mk [lbraceChar]

/-- Model of `str::to_uppercase` (character-wise uppercasing; the identifiers
involved are ASCII, where Rust's Unicode uppercasing agrees). -/
def toUpperStr (s : String) : String :=
  String.mk (s.data.map Char.toUpper)

/-- Split a character list on a separator, keeping empty pieces (the
semantics of Rust's `str::split(char)`). -/
def splitChar (sep : Char) : List Char → List (List Char)
  | [] => [[]]
  | c :: cs =>
    match splitChar sep cs with
    | [] => if c = sep then [[], []] else [[c]]
    | s :: ss => if c = sep then [] :: s :: ss else (c :: s) :: ss

/-- Model of `str::split('/')` collected into a list of strings. -/
def splitSlash (s : String) : List String :=
  (splitChar '/' s.data).map String.mk

/-- Model of `str::starts_with(&str)`. -/
def strStartsWith (s pre : String) : Bool :=
  pre.data.isPrefixOf s.data

/-- The per-segment loop of `ResourceId::validate_pattern`: a pattern segment
starting with a brace is a wildcard, any other must equal the id segment
(both sides already uppercased); the first mismatch is reported. -/
def segCheck : List String → List String → Except String Unit
  | a :: as_, p :: ps =>
    if !strStartsWith p lbraceStr && a != p then
      Except.error ("id contains unexpected segment: expect=" ++ p ++ ", got=" ++ a)
    else segCheck as_ ps
  | _, _ => Except.ok ()

/-- `ResourceId::validate_pattern` from `src/cmd.rs`: uppercase both sides,
split on `/`, drop the last pattern segment for `POST`, require equal segment
counts, then compare segment-wise with `{`-segments as wildcards.
(Rust's Unicode `to_uppercase` is modelled by ASCII `String.toUpper`;
all identifiers involved are ASCII.) -/
def ResourceId.validate_pattern (rid : ResourceId) (pattern : String)
    (method : Method) : Except String Unit :=
  let argSegs := splitSlash (toUpperStr rid.val)
  let patternSegs0 := splitSlash (toUpperStr pattern)
  let patternSegs := if method = Method.post then patternSegs0.dropLast else patternSegs0
  if argSegs.length ≠ patternSegs.length then
    Except.error ("id has unexpected length: expect=" ++ toString patternSegs.length
      ++ ", got=" ++ toString argSegs.length)
  else segCheck argSegs patternSegs

/-! ## `src/api/metadata_command.rs`: the command metadata model -/

inductive ConditionOperatorType where
  | hasValue | not_ | and_ | or_
deriving DecidableEq, Repr

/-- `ConditionOperator` (untagged union in the source). -/
inductive ConditionOperator where
  | operators (operators : List ConditionOperator) (type_ : ConditionOperatorType)
  | operator (operator : ConditionOperator) (type_ : ConditionOperatorType)
  | arg (arg : String) (type_ : ConditionOperatorType)
deriving Repr

structure Condition where
  operator : ConditionOperator
  var : String
deriving Repr

inductive Plane where
  | mgmt | data
deriving DecidableEq, Repr

structure Resource where
  id : String
  plane : Plane
deriving Repr

structure Help where
  short : String
deriving Repr

structure AdditionalPropItemSchema where
  type_ : String
deriving Repr

structure AdditionalPropSchema where
  item : AdditionalPropItemSchema
deriving Repr

structure Arg where
  type_ : String
  var : String
  options : List String
  group : Option String
  help : Option Help
  required : Option Bool
  id_part : Option String
  additional_props : Option AdditionalPropSchema
  hide : Option Bool
deriving Repr

structure ArgGroup where
  name : String
  args : List Arg
deriving Repr

structure ResponseFormat where
  template : Option String
deriving Repr

/-- `Schema` from `src/api/metadata_command.rs` (recursive, hence an
inductive; field accessors are defined below). -/
inductive Schema where
  | mk (type_ : String) (name : Option String) (description : Option String)
       (required : Option Bool) (arg : Option String) (read_only : Option Bool)
       (props : Option (List Schema)) (item : Option Schema)
       (format : Option ResponseFormat) (client_flatten : Option Bool)
       (additional_props : Option AdditionalPropSchema)
deriving Repr

def Schema.type_ : Schema → String
  | .mk t _ _ _ _ _ _ _ _ _ _ => t

def Schema.name : Schema → Option String
  | .mk _ n _ _ _ _ _ _ _ _ _ => n

def Schema.arg : Schema → Option String
  | .mk _ _ _ _ a _ _ _ _ _ _ => a

def Schema.props : Schema → Option (List Schema)
  | .mk _ _ _ _ _ _ p _ _ _ _ => p

/-- Convenience constructor carrying only the fields the body builder reads. -/
def mkSchema (t : String) (nm : Option String) (ar : Option String)
    (ps : Option (List Schema)) : Schema :=
  Schema.mk t nm none none ar none ps none none none none

structure BodyJSON where
  schema : Option Schema
  var : Option String
  ref_ : Option String
deriving Repr

structure Body where
  json : BodyJSON
deriving Repr

structure Response where
  status_code : Option (List Int)
  body : Option Body
  is_error : Option Bool
deriving Repr

structure RequestFormat where
  pattern : Option String
  max_length : Option Int
  min_length : Option Int
deriving Repr

structure RequestPathParam where
  type_ : String
  name : String
  arg : String
  required : Option Bool
  format : Option RequestFormat
deriving Repr

structure RequestPath where
  params : List RequestPathParam
deriving Repr

structure DefaultValue where
  value : String
deriving Repr

structure RequestQueryConst where
  name : String
  type_ : String
  required : Option Bool
  read_only : Option Bool
  const_ : Bool
  default : DefaultValue
deriving Repr

structure RequestQueryParam where
  arg : String
  description : String
  name : String
  type_ : String
deriving Repr

structure RequestQuery where
  consts : List RequestQueryConst
  params : Option (List RequestQueryParam)
deriving Repr

structure Request where
  method : Method
  path : RequestPath
  query : RequestQuery
  body : Option Body
deriving Repr

structure Http where
  path : String
  request : Request
  responses : List Response
deriving Repr

structure Operation where
  operation_id : Option String
  http : Option Http
  when : Option (List String)
deriving Repr

structure Output where
  type_ : String
  client_flatten : Option Bool
deriving Repr

structure Command where
  arg_groups : List ArgGroup
  conditions : Option (List Condition)
  operations : List Operation
  outputs : Option (List Output)
  resources : List Resource
deriving Repr

/-! ## `Command::match_operator` / `Command::match_condition`

`match_operator` panics (`unreachable!`) on mistyped operator/type
combinations; a panic is modelled as `none`, a normal boolean result as
`some b`.  Rust's `all`/`any` short-circuit, so a panic hiding behind a
decided prefix is not reached — `allOps`/`anyOps` reproduce this. -/

mutual

def match_operator (m : ArgMatches) : ConditionOperator → Option Bool
  | ConditionOperator.operators ops t =>
    match t with
    | ConditionOperatorType.and_ => allOps m ops
    | ConditionOperatorType.or_ => anyOps m ops
    | _ => none
  | ConditionOperator.operator o t =>
    match t with
    | ConditionOperatorType.not_ =>
      match match_operator m o with
      | some b => some (!b)
      | none => none
    | _ => none
  | ConditionOperator.arg a t =>
    match t with
    | ConditionOperatorType.hasValue => some (getOne m a).isSome
    | _ => none

def allOps (m : ArgMatches) : List ConditionOperator → Option Bool
  | [] => some true
  | o :: os =>
    match match_operator m o with
    | none => none
    | some false => some false
    | some true => allOps m os

def anyOps (m : ArgMatches) : List ConditionOperator → Option Bool
  | [] => some false
  | o :: os =>
    match match_operator m o with
    | none => none
    | some true => some true
    | some false => anyOps m os

end

/-- `ID_OPTION` from `src/cmd.rs`. -/
def ID_OPTION : String := "id"

/-- The `conditions.iter().find(...).map(|c| c.var)` part of
`match_condition`; the panic of `match_operator` propagates. -/
def matchConds (m : ArgMatches) : List Condition → Option (Option String)
  | [] => some none
  | c :: cs =>
    match match_operator m c.operator with
    | none => none
    | some true => some (some c.var)
    | some false => matchConds m cs

def isOkE {ε α : Type} : Except ε α → Bool
  | Except.ok _ => true
  | Except.error _ => false

/-- Whether an operation's `http.path` (with the method's POST rule) matches
the resource id — the predicate of the `find` in `match_condition`. -/
def operationMatchesId (rid : ResourceId) (op : Operation) : Bool :=
  match op.http with
  | some http => isOkE (rid.validate_pattern http.path http.request.method)
  | none => false

/-- `Command::match_condition` from `src/api/metadata_command.rs`.
`stdinId` models the outcome of `ResourceId::from_stdin()` (the raw id string
read from stdin when the id option is `-`); its `.ok()?` failure makes the
whole function return `None`.  The outer `Option` is the panic layer of
`match_operator`. -/
def Command.match_condition (cmd : Command) (m : ArgMatches)
    (stdinId : Option String) : Option (Option String) :=
  match cmd.conditions with
  | none => some none
  | some conds =>
    match getOne m ID_OPTION with
    | some idStr =>
      let rid? := if idStr = "-" then stdinId.map ResourceId.fromString
                  else some (ResourceId.fromString idStr)
      match rid? with
      | none => some none
      | some rid =>
        some (((cmd.operations.find? (operationMatchesId rid)).bind
          (fun op => op.when)).bind List.getLast?)
    | none => matchConds m conds

/-- `Command::select_operation_by_cond` from `src/api/metadata_command.rs`. -/
def Command.select_operation_by_cond (cmd : Command) (cond : Option String) :
    Option Operation :=
  match cond with
  | some c =>
    cmd.operations.find? (fun op => (op.when.getD []).any (fun w => w = c))
  | none =>
    match cmd.operations with
    | [op] => some op
    | _ => none

/-! ## `src/api/invoke.rs`: the body builder -/

/-- Insert into the in-progress JSON object map (`serde_json::Map::insert`):
replace the value when the key is present, append otherwise.  Key order is
modelled as insertion order. -/
def insertKV (k : String) (v : JValue) :
    List (String × JValue) → List (String × JValue)
  | [] => [(k, v)]
  | (k', v') :: rest =>
    if k' = k then (k, v) :: rest else (k', v') :: insertKV k v rest

mutual

/-- `BodyBuilder::build_value` from `src/api/invoke.rs`.  The `object`/`arg`
branch parses the bound value with `from_str::<Value>`; the fall-through
branch uses `from_str::<Option<Value>>` (a literal `null` yields `None`);
the `string` branch wraps the raw bound string.  Parse errors propagate
via `?`. -/
def build_value (m : ArgMatches) : Schema → Except String (Option JValue)
  | Schema.mk t _nm _d _r ar _ro props _it _f _cf _ap =>
    if t = "object" then
      match ar with
      | some a =>
        match getOne m a with
        | some v =>
          match parseJson v with
          | some j => Except.ok (some j)
          | none => Except.error ("failed to parse JSON: " ++ v)
        | none => Except.ok none
      | none =>
        match props with
        | some ps =>
          match build_props m ps [] with
          | Except.error e => Except.error e
          | Except.ok fields =>
            if fields.isEmpty then Except.ok none
            else Except.ok (some (JValue.obj fields))
        | none => Except.error "schema lacks both the arg and props"
    else if t = "string" then
      match ar with
      | some a =>
        match getOne m a with
        | some v => Except.ok (some (JValue.str v))
        | none => Except.ok none
      | none => Except.error "schema lacks the arg in the schema"
    else
      match ar with
      | some a =>
        match getOne m a with
        | some v =>
          match parseJson v with
          | some JValue.null => Except.ok none
          | some j => Except.ok (some j)
          | none => Except.error ("failed to parse JSON: " ++ v)
        | none => Except.ok none
      | none => Except.error "schema lacks the arg in the schema"

/-- The `for prop in props` loop shared by `build_body` and the
`object`/`props` branch of `build_value`: each child must carry a name, a
child error propagates, and only children producing a value are inserted. -/
def build_props (m : ArgMatches) : List Schema → List (String × JValue) →
    Except String (List (String × JValue))
  | [], acc => Except.ok acc
  | p :: ps, acc =>
    match p.name with
    | none => Except.error "property lacks the name in the schema"
    | some nm =>
      match build_value m p with
      | Except.error e => Except.error e
      | Except.ok v? =>
        match v? with
        | some v => build_props m ps (insertKV nm v acc)
        | none => build_props m ps acc

end

/-- `BodyBuilder::build_body` from `src/api/invoke.rs`: the top-level build
requires `props` and returns the (possibly empty) object. -/
def build_body (m : ArgMatches) (schema : Schema) : Except String JValue :=
  match schema.props with
  | some ps =>
    match build_props m ps [] with
    | Except.error e => Except.error e
    | Except.ok fields => Except.ok (JValue.obj fields)
  | none => Except.error "schema lacks the top level props in the schema"

/-! ## `src/api/invoke.rs`: query construction and response routing -/

/-- `HashMap::insert` on the query-pair map. -/
def updQ (q : String → Option String) (k v : String) : String → Option String :=
  fun x => if x = k then some v else q x

/-- One iteration of the constants loop: only the `api-version` constant is
handled ("Only handle api-version const query so far."), inserting the user
override when bound and the declared default otherwise. -/
def constStep (m : ArgMatches) (q : String → Option String)
    (c : RequestQueryConst) : String → Option String :=
  if c.name = "api-version" then
    match getOne m "api-version" with
    | some v => updQ q c.name v
    | none => updQ q c.name c.default.value
  else q

/-- One iteration of the dynamic-parameters loop: insert the pair when the
parameter's argument is bound. -/
def paramStep (m : ArgMatches) (q : String → Option String)
    (p : RequestQueryParam) : String → Option String :=
  match getOne m p.arg with
  | some v => updQ q p.name v
  | none => q

/-- The query-construction section of `OperationInvocation::invoke`
(lines 71–88): the `HashMap<String, String>` of query pairs is modelled as a
function `String → Option String`; the constants loop (`constStep`) is run
over the declared constants, then the dynamic-parameters loop (`paramStep`)
over the declared parameters. -/
def build_query (consts : List RequestQueryConst)
    (params : Option (List RequestQueryParam)) (m : ArgMatches) :
    String → Option String :=
  let q1 := consts.foldl (constStep m) (fun _ => none)
  match params with
  | some ps => ps.foldl (paramStep m) q1
  | none => q1

/-- The response-routing loop of `OperationInvocation::invoke`
(lines 113–124): the first declared response whose status-code set contains
the actual code routes the body to success; otherwise an error carrying the
status code and the body text is synthesized.  `is_error` is never read. -/
def route_response (responses : List Response) (status : Int) (body : String) :
    Except String String :=
  match responses with
  | [] => Except.error ("error response: " ++ toString status ++ "\n\n" ++ body)
  | r :: rs =>
    match r.status_code with
    | some codes =>
      if codes.contains status then Except.ok body
      else route_response rs status body
    | none => route_response rs status body

/-! ## `src/api/metadata_index.rs`: the command index

The `HashMap<String, _>` children maps are modelled as association lists
(looked up with `List.lookup`). -/

structure IndexCommand where
  help : Option Help
  versions : List String
deriving Repr

inductive CommandGroup where
  | mk (command_groups : Option (List (String × CommandGroup)))
       (commands : Option (List (String × IndexCommand)))
       (help : Option Help)
deriving Repr

def CommandGroup.command_groups : CommandGroup → Option (List (String × CommandGroup))
  | .mk cgs _ _ => cgs

def CommandGroup.commands : CommandGroup → Option (List (String × IndexCommand))
  | .mk _ cs _ => cs

structure Index where
  help : Option Help
  command_groups : List (String × CommandGroup)
deriving Repr

def lookupGroup (cg : CommandGroup) (k : String) : Option CommandGroup :=
  cg.command_groups.bind (fun l => List.lookup k l)

def lookupCommand (cg : CommandGroup) (k : String) : Option IndexCommand :=
  cg.commands.bind (fun l => List.lookup k l)

/-- Model of Rust's `Iterator::max` over strings: the maximum element, the
last one on ties. -/
def maxString : List String → Option String
  | [] => none
  | v :: vs => some (vs.foldl (fun m x => if x < m then m else x) v)

/-- The `while let Some(arg) = args.next()` loop of
`Index::locate_command_file`: descend into a child group when the segment
names one, stop at a leaf command (no further segment permitted) and resolve
the version, fail on an unknown segment, on segments exhausted at a group and
on an unavailable or undefined version. -/
def locate_loop (apiVersion : Option String) :
    CommandGroup → List String → List String → Except String String
  | _, _, [] => Except.error "this isn't a command"
  | cg, parts, a :: rest =>
    let parts := parts ++ [a]
    match lookupGroup cg a with
    | some v => locate_loop apiVersion v parts rest
    | none =>
      match lookupCommand cg a with
      | some v =>
        match rest with
        | r :: _ => Except.error ("unknown argument " ++ r)
        | [] =>
          match apiVersion with
          | some version =>
            match v.versions.find? (fun x => x = version) with
            | some ver =>
              Except.ok (String.intercalate "_" (parts ++ [ver]) ++ ".json")
            | none =>
              Except.error ("api version " ++ version ++ " not available")
          | none =>
            match maxString v.versions with
            | some ver =>
              Except.ok (String.intercalate "_" (parts ++ [ver]) ++ ".json")
            | none => Except.error "no api version defined"
      | none => Except.error ("unknown argument " ++ a)

/-- `Index::locate_command_file` from `src/api/metadata_index.rs`: the first
positional segment (the resource provider) is consumed into the file-name
parts unconditionally, then the loop walks the index from a synthetic root
group wrapping the index's command groups. -/
def Index.locate_command_file (idx : Index) (apiVersion : Option String)
    (input : List String) : Except String String :=
  match input with
  | [] => Except.error "empty CLI input"
  | rp :: rest =>
    locate_loop apiVersion (CommandGroup.mk (some idx.command_groups) none none)
      [rp] rest

/-! ## Spec-side definitions

`evalSpec` follows the specification's words for the condition evaluator
(§4.2): `hasValue(arg)` is true iff `arg` is bound, `and` evaluates all
sub-operators, `or` any, `not` negates its single child.  It is compared with
the source-derived `match_operator` on well-formed trees. -/

mutual

def evalSpec (m : ArgMatches) : ConditionOperator → Bool
  | ConditionOperator.operators ops t =>
    match t with
    | ConditionOperatorType.and_ => evalAllSpec m ops
    | ConditionOperatorType.or_ => evalAnySpec m ops
    | _ => false
  | ConditionOperator.operator o t =>
    match t with
    | ConditionOperatorType.not_ => !evalSpec m o
    | _ => false
  | ConditionOperator.arg a t =>
    match t with
    | ConditionOperatorType.hasValue => (getOne m a).isSome
    | _ => false

def evalAllSpec (m : ArgMatches) : List ConditionOperator → Bool
  | [] => true
  | o :: os => evalSpec m o && evalAllSpec m os

def evalAnySpec (m : ArgMatches) : List ConditionOperator → Bool
  | [] => false
  | o :: os => evalSpec m o || evalAnySpec m os

end

/-- Well-formed condition trees (the data-model invariant of §3):
`and`/`or` only on `operators` nodes, `not` only on single-operator nodes,
`hasValue` only on argument leaves. -/
inductive WFOperator : ConditionOperator → Prop
  | and_ (ops) : (∀ o ∈ ops, WFOperator o) →
      WFOperator (ConditionOperator.operators ops ConditionOperatorType.and_)
  | or_ (ops) : (∀ o ∈ ops, WFOperator o) →
      WFOperator (ConditionOperator.operators ops ConditionOperatorType.or_)
  | not_ (o) : WFOperator o →
      WFOperator (ConditionOperator.operator o ConditionOperatorType.not_)
  | hasValue (a) :
      WFOperator (ConditionOperator.arg a ConditionOperatorType.hasValue)

/-- Condition trees containing no single-operator (`not`) node. -/
inductive NotFree : ConditionOperator → Prop
  | operators (ops t) : (∀ o ∈ ops, NotFree o) →
      NotFree (ConditionOperator.operators ops t)
  | arg (a t) : NotFree (ConditionOperator.arg a t)

/-- `S` binds no more arguments than `S'`. -/
def ArgsSub (S S' : ArgMatches) : Prop :=
  ∀ k : String, (getOne S k).isSome → (getOne S' k).isSome

/-! ## Resource-id validation (claim C4) -/

/-- The id's segment list as computed by `validate_pattern`. -/
def idSegs (rid : ResourceId) : List String :=
  splitSlash (toUpperStr rid.val)

/-- The pattern's segment list as computed by `validate_pattern` (the last
segment removed for `POST`). -/
def patSegs (pattern : String) (method : Method) : List String :=
  if method = Method.post then (splitSlash (toUpperStr pattern)).dropLast
  else splitSlash (toUpperStr pattern)

theorem validate_pattern_eq (rid : ResourceId) (pattern : String)
    (method : Method) :
    rid.validate_pattern pattern method =
      if (idSegs rid).length ≠ (patSegs pattern method).length then
        Except.error ("id has unexpected length: expect="
          ++ toString (patSegs pattern method).length
          ++ ", got=" ++ toString (idSegs rid).length)
      else segCheck (idSegs rid) (patSegs pattern method) := rfl

theorem segCheck_ok_iff (as_ ps : List String) :
    segCheck as_ ps = Except.ok () ↔
      ∀ x ∈ as_.zip ps, strStartsWith x.2 lbraceStr = true ∨ x.1 = x.2 := by
  induction as_ generalizing ps with
  | nil => simp [segCheck]
  | cons a as_ ih =>
    cases ps with
    | nil => simp [segCheck]
    | cons p ps =>
      rw [segCheck]
      cases hw : strStartsWith p lbraceStr with
      | true => simp [hw, ih]
      | false =>
        by_cases heq : a = p
        · simp [hw, heq, ih]
        · have hne : (a != p) = true := bne_iff_ne.mpr heq
          simp [hw, hne, heq]

theorem fromString_append_slash (s : String) :
    ResourceId.fromString (s ++ "/") = ResourceId.fromString s := by
  simp [ResourceId.fromString, String.data_append, List.dropWhile]

/-- C4.  Validation strips trailing slashes from the id first, then compares
segment-wise (case-insensitively, via uppercasing) with `\x7b`-segments as
wildcards, dropping the last pattern segment for `POST`; a segment-count
difference is a length-mismatch error.  Scenario A (PUT id with trailing
slash validates) and scenario B (id missing the last segment fails with the
length-mismatch error) hold. -/
theorem c4_validate_pattern :
    (∀ s pattern method, (ResourceId.fromString (s ++ "/")).validate_pattern pattern method
        = (ResourceId.fromString s).validate_pattern pattern method)
    ∧ (∀ rid pattern method,
        (idSegs rid).length ≠ (patSegs pattern method).length →
          rid.validate_pattern pattern method =
            Except.error ("id has unexpected length: expect="
              ++ toString (patSegs pattern method).length
              ++ ", got=" ++ toString (idSegs rid).length))
    ∧ (∀ rid pattern method,
        rid.validate_pattern pattern method = Except.ok () ↔
          (idSegs rid).length = (patSegs pattern method).length ∧
          ∀ x ∈ (idSegs rid).zip (patSegs pattern method),
            strStartsWith x.2 lbraceStr = true ∨ x.1 = x.2)
    ∧ ((ResourceId.fromString
        "/subscriptions/00000000-0000-0000-0000-000000000000/resourcegroups/MyRG/").validate_pattern
        "/subscriptions/{subscriptionId}/resourcegroups/{resourceGroupName}"
        Method.put = Except.ok ())
    ∧ ((ResourceId.fromString
        "/subscriptions/00000000-0000-0000-0000-000000000000/resourcegroups").validate_pattern
        "/subscriptions/{subscriptionId}/resourcegroups/{resourceGroupName}"
        Method.put = Except.error "id has unexpected length: expect=5, got=4") := by
  refine ⟨?_, ?_, ?_, ?_, ?_⟩
  · intro s pattern method
    rw [fromString_append_slash]
  · intro rid pattern method h
    rw [validate_pattern_eq, if_pos h]
  · intro rid pattern method
    rw [validate_pattern_eq]
    by_cases h : (idSegs rid).length = (patSegs pattern method).length
    · rw [if_neg (by simp [h])]
      simp [segCheck_ok_iff, h]
    · rw [if_pos h]
      simp [h]
  · rfl
  · rfl

/-! ## Condition evaluation (claims C1, C8, C10) -/

theorem allOps_eq_evalAllSpec (m : ArgMatches) (ops : List ConditionOperator)
    (h : ∀ o ∈ ops, match_operator m o = some (evalSpec m o)) :
    allOps m ops = some (evalAllSpec m ops) := by
  induction ops with
  | nil => simp [allOps, evalAllSpec]
  | cons o os ih =>
    have ho := h o (by simp)
    have hos := ih (fun o' ho' => h o' (by simp [ho']))
    rw [allOps, ho, evalAllSpec]
    cases hev : evalSpec m o <;> simp [hos]

theorem anyOps_eq_evalAnySpec (m : ArgMatches) (ops : List ConditionOperator)
    (h : ∀ o ∈ ops, match_operator m o = some (evalSpec m o)) :
    anyOps m ops = some (evalAnySpec m ops) := by
  induction ops with
  | nil => simp [anyOps, evalAnySpec]
  | cons o os ih =>
    have ho := h o (by simp)
    have hos := ih (fun o' ho' => h o' (by simp [ho']))
    rw [anyOps, ho, evalAnySpec]
    cases hev : evalSpec m o <;> simp [hos]

/-- On well-formed condition trees, the source evaluator does not panic and
agrees with the specification's evaluator. -/
theorem match_operator_wf (m : ArgMatches) {op : ConditionOperator}
    (h : WFOperator op) : match_operator m op = some (evalSpec m op) := by
  induction h with
  | and_ ops _ ih =>
    rw [match_operator, evalSpec]
    exact allOps_eq_evalAllSpec m ops ih
  | or_ ops _ ih =>
    rw [match_operator, evalSpec]
    exact anyOps_eq_evalAnySpec m ops ih
  | not_ o _ ih => rw [match_operator, evalSpec, ih]
  | hasValue a => rfl

theorem matchConds_wf (m : ArgMatches) (conds : List Condition)
    (h : ∀ c ∈ conds, WFOperator c.operator) :
    matchConds m conds =
      some ((conds.find? (fun c => evalSpec m c.operator)).map
        (fun c => c.var)) := by
  induction conds with
  | nil => simp [matchConds]
  | cons c cs ih =>
    have hc := match_operator_wf m (h c (by simp))
    rw [matchConds, hc, List.find?]
    cases hev : evalSpec m c.operator with
    | true => simp
    | false => simpa using ih (fun c' hc' => h c' (by simp [hc']))

/-- C1.  With a conditions list of well-formed trees and no explicit resource
id bound, `match_condition` does not panic and returns the `var` of the
first condition (in order) whose operator evaluates true under the
specification semantics (`hasValue` = boundness, `and` = all, `or` = any,
`not` = negation), and none when no condition evaluates true. -/
theorem c1_select_condition (cmd : Command) (conds : List Condition)
    (m : ArgMatches) (stdinId : Option String)
    (h1 : cmd.conditions = some conds)
    (h2 : ∀ c ∈ conds, WFOperator c.operator)
    (h3 : getOne m ID_OPTION = none) :
    cmd.match_condition m stdinId =
      some ((conds.find? (fun c => evalSpec m c.operator)).map
        (fun c => c.var)) := by
  rw [Command.match_condition, h1, h3]
  exact matchConds_wf m conds h2

/-- The two conditions of Scenario C. -/
def condListAll : Condition :=
  ⟨ConditionOperator.operators
      [ConditionOperator.arg "subscriptionId" ConditionOperatorType.hasValue,
       ConditionOperator.operator
         (ConditionOperator.arg "resourceGroupName" ConditionOperatorType.hasValue)
         ConditionOperatorType.not_]
      ConditionOperatorType.and_,
   "ListAll"⟩

def condList : Condition :=
  ⟨ConditionOperator.operators
      [ConditionOperator.arg "subscriptionId" ConditionOperatorType.hasValue,
       ConditionOperator.arg "resourceGroupName" ConditionOperatorType.hasValue]
      ConditionOperatorType.and_,
   "List"⟩

theorem scenarioC_wf : ∀ c ∈ [condListAll, condList], WFOperator c.operator := by
  intro c hc
  simp only [List.mem_cons, List.not_mem_nil, or_false] at hc
  rcases hc with rfl | rfl
  · refine WFOperator.and_ _ ?_
    intro o ho
    simp only [condListAll, List.mem_cons, List.not_mem_nil, or_false] at ho
    rcases ho with rfl | rfl
    · exact WFOperator.hasValue _
    · exact WFOperator.not_ _ (WFOperator.hasValue _)
  · refine WFOperator.and_ _ ?_
    intro o ho
    simp only [condList, List.mem_cons, List.not_mem_nil, or_false] at ho
    rcases ho with rfl | rfl
    · exact WFOperator.hasValue _
    · exact WFOperator.hasValue _

/-- Scenario C: with only `subscriptionId` bound, the selected variable is
`ListAll`. -/
theorem c1_select_condition_witness :
    (Command.mk [] (some [condListAll, condList]) [] none []).match_condition
      [("subscriptionId", "00000000-0000-0000-0000-000000000000")] none =
      some (some "ListAll") := by
  rw [c1_select_condition _ [condListAll, condList] _ none rfl scenarioC_wf (by rfl)]
  rfl

theorem c4_validate_pattern_witness :
    (idSegs ⟨"/a/b"⟩).length ≠ (patSegs "/a" Method.get).length ∧
    (ResourceId.mk "/a/b").validate_pattern "/a" Method.get =
      Except.error ("id has unexpected length: expect="
        ++ toString (patSegs "/a" Method.get).length
        ++ ", got=" ++ toString (idSegs ⟨"/a/b"⟩).length) :=
  ⟨by decide, c4_validate_pattern.2.1 ⟨"/a/b"⟩ "/a" Method.get (by decide)⟩

theorem getOne_append (S T : ArgMatches) (k : String) :
    getOne (S ++ T) k = (getOne S k).or (getOne T k) := by
  induction S with
  | nil => simp [getOne]
  | cons p S ih =>
    rcases p with ⟨a, b⟩
    simp only [getOne, List.cons_append, List.lookup] at ih ⊢
    cases hx : (k == a) <;> simp [hx, ih]

theorem getOne_append_isSome (S T : ArgMatches) (k : String)
    (h : (getOne S k).isSome) : (getOne (S ++ T) k).isSome := by
  rw [getOne_append]
  cases hx : getOne S k
  · rw [hx] at h; cases h
  · simp [hx]

theorem hasValue_mono (S S' : ArgMatches) (hsub : ArgsSub S S') (a : String) :
    match_operator S (ConditionOperator.arg a ConditionOperatorType.hasValue) = some true →
    match_operator S' (ConditionOperator.arg a ConditionOperatorType.hasValue) = some true := by
  intro h
  simp only [match_operator, Option.some.injEq] at h ⊢
  exact hsub a h

theorem allOps_cons_false_or_none (S : ArgMatches) (o : ConditionOperator)
    (os : List ConditionOperator)
    (h : allOps S os = some false ∨ allOps S os = none) :
    allOps S (o :: os) = some false ∨ allOps S (o :: os) = none := by
  cases hSo : match_operator S o with
  | none => right; rw [allOps, hSo]
  | some b =>
    cases b with
    | false => left; rw [allOps, hSo]
    | true => rw [allOps, hSo]; exact h

theorem anyOps_cons_true_or_none (S : ArgMatches) (o : ConditionOperator)
    (os : List ConditionOperator)
    (h : anyOps S os = some true ∨ anyOps S os = none) :
    anyOps S (o :: os) = some true ∨ anyOps S (o :: os) = none := by
  cases hSo : match_operator S o with
  | none => right; rw [anyOps, hSo]
  | some b =>
    cases b with
    | true => left; rw [anyOps, hSo]
    | false => rw [anyOps, hSo]; exact h

theorem allOps_mono (S S' : ArgMatches) (ops : List ConditionOperator)
    (ih : ∀ o ∈ ops,
      (match_operator S o = some true →
        match_operator S' o = some true ∨ match_operator S' o = none)
      ∧ (match_operator S' o = some false →
        match_operator S o = some false ∨ match_operator S o = none)) :
    (allOps S ops = some true → allOps S' ops = some true ∨ allOps S' ops = none)
    ∧ (allOps S' ops = some false →
      allOps S ops = some false ∨ allOps S ops = none) := by
  induction ops with
  | nil => simp [allOps]
  | cons o os ihl =>
    obtain ⟨ho1, ho2⟩ := ih o (by simp)
    obtain ⟨hs1, hs2⟩ := ihl (fun o' h' => ih o' (by simp [h']))
    constructor
    · intro h
      rw [allOps] at h
      cases hSo : match_operator S o with
      | none => rw [hSo] at h; cases h
      | some b =>
        cases b with
        | false => rw [hSo] at h; cases h
        | true =>
          rw [hSo] at h
          rcases ho1 hSo with h' | h'
          · rcases hs1 h with h'' | h''
            · left; rw [allOps, h', h'']
            · right; rw [allOps, h', h'']
          · right; rw [allOps, h']
    · intro h
      rw [allOps] at h
      cases hSo : match_operator S' o with
      | none => rw [hSo] at h; cases h
      | some b =>
        cases b with
        | false =>
          rcases ho2 hSo with h' | h'
          · left; rw [allOps, h']
          · right; rw [allOps, h']
        | true =>
          rw [hSo] at h
          exact allOps_cons_false_or_none S o os (hs2 h)

theorem anyOps_mono (S S' : ArgMatches) (ops : List ConditionOperator)
    (ih : ∀ o ∈ ops,
      (match_operator S o = some true →
        match_operator S' o = some true ∨ match_operator S' o = none)
      ∧ (match_operator S' o = some false →
        match_operator S o = some false ∨ match_operator S o = none)) :
    (anyOps S ops = some true → anyOps S' ops = some true ∨ anyOps S' ops = none)
    ∧ (anyOps S' ops = some false →
      anyOps S ops = some false ∨ anyOps S ops = none) := by
  induction ops with
  | nil => simp [anyOps]
  | cons o os ihl =>
    obtain ⟨ho1, ho2⟩ := ih o (by simp)
    obtain ⟨hs1, hs2⟩ := ihl (fun o' h' => ih o' (by simp [h']))
    constructor
    · intro h
      rw [anyOps] at h
      cases hSo : match_operator S o with
      | none => rw [hSo] at h; cases h
      | some b =>
        cases b with
        | true =>
          rcases ho1 hSo with h' | h'
          · left; rw [anyOps, h']
          · right; rw [anyOps, h']
        | false =>
          rw [hSo] at h
          exact anyOps_cons_true_or_none S' o os (hs1 h)
    · intro h
      rw [anyOps] at h
      cases hSo : match_operator S' o with
      | none => rw [hSo] at h; cases h
      | some b =>
        cases b with
        | true => rw [hSo] at h; cases h
        | false =>
          rw [hSo] at h
          rcases ho2 hSo with h' | h'
          · rcases hs2 h with h'' | h''
            · left; rw [anyOps, h', h'']
            · right; rw [anyOps, h', h'']
          · right; rw [anyOps, h']

/-- On `not`-free trees, enlarging the bound-argument set can turn an
evaluation true (or aborted) but never from true to false. -/
theorem mono_aux (S S' : ArgMatches) (hsub : ArgsSub S S')
    {op : ConditionOperator} (h : NotFree op) :
    (match_operator S op = some true →
      match_operator S' op = some true ∨ match_operator S' op = none)
    ∧ (match_operator S' op = some false →
      match_operator S op = some false ∨ match_operator S op = none) := by
  induction h with
  | operators ops t _ ih =>
    cases t with
    | and_ => simpa only [match_operator] using allOps_mono S S' ops ih
    | or_ => simpa only [match_operator] using anyOps_mono S S' ops ih
    | hasValue => simp [match_operator]
    | not_ => simp [match_operator]
  | arg a t =>
    cases t with
    | hasValue =>
      constructor
      · intro h1
        left
        exact hasValue_mono S S' hsub a h1
      · intro h1
        left
        simp only [match_operator, Option.some.injEq] at h1 ⊢
        cases hS : (getOne S a).isSome
        · rfl
        · rw [hsub a hS] at h1; cases h1
    | not_ => simp [match_operator]
    | and_ => simp [match_operator]
    | or_ => simp [match_operator]

/-- C8 (amended).  `hasValue` leaves are monotone in the bound-argument set,
and the evaluation of a condition tree containing no `not` operator never
flips from true to false when arguments are added.  (The unamended claim is
refuted by `c8_counterexample`: a `not` node flips.) -/
theorem c8_evaluation_monotonic (op : ConditionOperator) (S S' : ArgMatches)
    (hnf : NotFree op) (hsub : ArgsSub S S') :
    (∀ a : String,
      match_operator S (ConditionOperator.arg a ConditionOperatorType.hasValue) = some true →
      match_operator S' (ConditionOperator.arg a ConditionOperatorType.hasValue) = some true)
    ∧ (match_operator S op = some true → match_operator S' op ≠ some false) := by
  constructor
  · exact fun a => hasValue_mono S S' hsub a
  · intro h1 h2
    rcases (mono_aux S S' hsub hnf).2 h2 with h | h <;> rw [h1] at h <;> cases h

/-- The tree `not hasValue(a)` evaluates true with no arguments bound and
false once `a` is bound: evaluation is not monotonic for every tree. -/
theorem c8_counterexample :
    ArgsSub [] [("a", "1")]
    ∧ match_operator []
        (ConditionOperator.operator
          (ConditionOperator.arg "a" ConditionOperatorType.hasValue)
          ConditionOperatorType.not_) = some true
    ∧ match_operator [("a", "1")]
        (ConditionOperator.operator
          (ConditionOperator.arg "a" ConditionOperatorType.hasValue)
          ConditionOperatorType.not_) = some false := by
  refine ⟨?_, rfl, rfl⟩
  intro k h
  simp [getOne] at h

theorem c8_evaluation_monotonic_witness :
    match_operator [("a", "1")]
      (ConditionOperator.operators
        [ConditionOperator.arg "a" ConditionOperatorType.hasValue]
        ConditionOperatorType.and_) = some true
    ∧ match_operator [("a", "1"), ("b", "2")]
      (ConditionOperator.operators
        [ConditionOperator.arg "a" ConditionOperatorType.hasValue]
        ConditionOperatorType.and_) ≠ some false :=
  ⟨rfl,
   (c8_evaluation_monotonic _ [("a", "1")] [("a", "1"), ("b", "2")]
      (NotFree.operators _ _ (by
        intro o ho
        simp only [List.mem_cons, List.not_mem_nil, or_false] at ho
        subst ho
        exact NotFree.arg _ _))
      (fun k h => getOne_append_isSome [("a", "1")] [("b", "2")] k h)).2 rfl⟩

/-- C10.  A command without a `conditions` field matches no condition
variable for any input (also when an explicit resource id is bound), and
selecting an operation with no condition variable succeeds exactly when the
command has exactly one operation. -/
theorem c10_no_conditions (cmd : Command) (h : cmd.conditions = none) :
    (∀ (m : ArgMatches) (stdinId : Option String),
      cmd.match_condition m stdinId = some none)
    ∧ ((cmd.select_operation_by_cond none).isSome ↔
      cmd.operations.length = 1) := by
  constructor
  · intro m sd
    rw [Command.match_condition, h]
  · rw [Command.select_operation_by_cond]
    cases hops : cmd.operations with
    | nil => simp
    | cons a l => cases l <;> simp

theorem c10_no_conditions_witness :
    ((Command.mk [] none [Operation.mk none none none] none []).match_condition
      [("id", "/subscriptions/sub")] none = some none)
    ∧ (((Command.mk [] none [Operation.mk none none none] none
        []).select_operation_by_cond none).isSome ↔
      (Command.mk [] none [Operation.mk none none none] none
        []).operations.length = 1) :=
  ⟨(c10_no_conditions _ rfl).1 _ _, (c10_no_conditions _ rfl).2⟩

/-! ## Response routing (claim C3) -/

/-- Whether a declared response claims the given status code. -/
def responseMatches (status : Int) (r : Response) : Bool :=
  match r.status_code with
  | some codes => codes.contains status
  | none => false

/-- C3.  The router returns the body as the success payload iff some declared
response's status-code set contains the actual status code, and otherwise an
error carrying the status code and the raw body text; the `is_error` flag of
a declared response never affects the routing.  Scenario E: with declared
responses `[{statusCode: [200, 201]}, {isError: true}]`, status 201 routes to
success with the body and status 404 routes to the failure message. -/
theorem c3_route_response :
    (∀ (responses : List Response) (status : Int) (body : String),
      route_response responses status body =
        if responses.any (responseMatches status) then Except.ok body
        else Except.error ("error response: " ++ toString status ++ "\n\n" ++ body))
    ∧ (∀ (responses : List Response) (status : Int) (body : String)
        (f : Response → Option Bool),
      route_response (responses.map (fun r => { r with is_error := f r }))
          status body =
        route_response responses status body)
    ∧ (∀ body : String,
      route_response [Response.mk (some [200, 201]) none none,
        Response.mk none none (some true)] 201 body = Except.ok body)
    ∧ (∀ body : String,
      route_response [Response.mk (some [200, 201]) none none,
        Response.mk none none (some true)] 404 body =
        Except.error ("error response: " ++ toString (404 : Int) ++ "\n\n" ++ body)) := by
  refine ⟨?_, ?_, ?_, ?_⟩
  · intro responses status body
    induction responses with
    | nil => simp [route_response]
    | cons r rs ih =>
      cases hc : r.status_code with
      | none => simp [route_response, hc, ih, List.any_cons, responseMatches]
      | some codes =>
        by_cases hm : status ∈ codes
        · simp [route_response, hc, hm, List.any_cons, responseMatches]
        · simp [route_response, hc, hm, List.any_cons, responseMatches, ih]
  · intro responses status body f
    induction responses with
    | nil => simp [route_response]
    | cons r rs ih =>
      rw [List.map_cons, route_response, route_response]
      cases hc : r.status_code with
      | none => simpa [hc] using ih
      | some codes =>
        by_cases hm : status ∈ codes
        · simp [hc, hm]
        · simpa [hc, hm] using ih
  · intro body; rfl
  · intro body; rfl

/-! ## Body building (claims C2, C5, C9) -/

theorem build_props_all_none (m : ArgMatches) (ps : List Schema)
    (h : ∀ p ∈ ps, (∃ n, p.name = some n) ∧ build_value m p = Except.ok none) :
    ∀ acc, build_props m ps acc = Except.ok acc := by
  induction ps with
  | nil => intro acc; rfl
  | cons p ps ih =>
    intro acc
    obtain ⟨⟨n, hn⟩, hv⟩ := h p (by simp)
    rw [build_props, hn, hv]
    exact ih (fun p' hp' => h p' (by simp [hp'])) acc

/-- C9.  A non-top-level `object` node with `props` whose children all yield
no value itself yields no value (the nested empty object is pruned), while
the top-level `build_body` on a schema with the same `props` returns the
empty JSON object. -/
theorem c9_empty_object_pruned (m : ArgMatches) (ps : List Schema)
    (nm d : Option String) (r ro : Option Bool) (it : Option Schema)
    (f : Option ResponseFormat) (cf : Option Bool)
    (ap : Option AdditionalPropSchema)
    (h : ∀ p ∈ ps, (∃ n, p.name = some n) ∧ build_value m p = Except.ok none) :
    build_value m (Schema.mk "object" nm d r none ro (some ps) it f cf ap) =
      Except.ok none
    ∧ ∀ (t : String) (ar : Option String),
      build_body m (Schema.mk t nm d r ar ro (some ps) it f cf ap) =
        Except.ok (JValue.obj []) := by
  have hp := build_props_all_none m ps h []
  constructor
  · simp [build_value, hp]
  · intro t ar
    simp [build_body, Schema.props, hp]

theorem c9_empty_object_pruned_witness :
    (∀ p ∈ [mkSchema "string" (some "leaf") (some "unbound") none],
      (∃ n, p.name = some n) ∧ build_value [] p = Except.ok none)
    ∧ build_value [] (Schema.mk "object" (some "inner") none none none none
        (some [mkSchema "string" (some "leaf") (some "unbound") none])
        none none none none) = Except.ok none
    ∧ build_body [] (Schema.mk "object" (some "inner") none none none none
        (some [mkSchema "string" (some "leaf") (some "unbound") none])
        none none none none) = Except.ok (JValue.obj []) := by
  have h : ∀ p ∈ [mkSchema "string" (some "leaf") (some "unbound") none],
      (∃ n, p.name = some n) ∧ build_value [] p = Except.ok none := by
    intro p hp
    simp only [List.mem_cons, List.not_mem_nil, or_false] at hp
    subst hp
    exact ⟨⟨"leaf", rfl⟩, rfl⟩
  obtain ⟨h1, h2⟩ := c9_empty_object_pruned [] _ (some "inner") none none none
    none none none none h
  exact ⟨h, h1, h2 "object" none⟩

/-- The behavior of the fall-through (`_`) branch of `build_value` for a
bound argument: the bound string is parsed as JSON (`from_str::<Option<Value>>`),
a parse failure is an error, and a literal `null` yields no value. -/
theorem build_value_else (m : ArgMatches) (t a v : String)
    (nm d : Option String) (r ro : Option Bool) (ps : Option (List Schema))
    (it : Option Schema) (f : Option ResponseFormat) (cf : Option Bool)
    (ap : Option AdditionalPropSchema)
    (h1 : t ≠ "object") (h2 : t ≠ "string") (h3 : getOne m a = some v) :
    (parseJson v = none →
      build_value m (Schema.mk t nm d r (some a) ro ps it f cf ap) =
        Except.error ("failed to parse JSON: " ++ v))
    ∧ (∀ j, parseJson v = some j → j ≠ JValue.null →
      build_value m (Schema.mk t nm d r (some a) ro ps it f cf ap) =
        Except.ok (some j))
    ∧ (parseJson v = some JValue.null →
      build_value m (Schema.mk t nm d r (some a) ro ps it f cf ap) =
        Except.ok none) := by
  refine ⟨?_, ?_, ?_⟩
  · intro hp
    simp [build_value, h1, h2, h3, hp]
  · intro j hp hj
    simp only [build_value, if_neg h1, if_neg h2, h3, hp]
  · intro hp
    simp [build_value, h1, h2, h3, hp]

/-- C2 (amended).  In the "else" schema-type bucket the builder parses the
bound string as JSON and a parse failure is an error — there is no
raw-string fallback, so the path can fail.  (The unamended "never returns an
error" is refuted by `c2_counterexample`.)  A parsed non-`null` value is the
subtree value, and a literal `null` yields no value. -/
theorem c2_else_bucket (m : ArgMatches) (t a v : String)
    (nm d : Option String) (r ro : Option Bool) (ps : Option (List Schema))
    (it : Option Schema) (f : Option ResponseFormat) (cf : Option Bool)
    (ap : Option AdditionalPropSchema)
    (h1 : t ≠ "object") (h2 : t ≠ "string") (h3 : getOne m a = some v) :
    (parseJson v = none →
      build_value m (Schema.mk t nm d r (some a) ro ps it f cf ap) =
        Except.error ("failed to parse JSON: " ++ v))
    ∧ (∀ j, parseJson v = some j → j ≠ JValue.null →
      build_value m (Schema.mk t nm d r (some a) ro ps it f cf ap) =
        Except.ok (some j))
    ∧ (parseJson v = some JValue.null →
      build_value m (Schema.mk t nm d r (some a) ro ps it f cf ap) =
        Except.ok none) :=
  build_value_else m t a v nm d r ro ps it f cf ap h1 h2 h3

/-- A schema node of the exotic type `custom` whose argument is bound to the
non-JSON text `abc` makes the builder fail: the "else" path does return an
error, and does not fall back to the raw string. -/
theorem c2_counterexample :
    build_value [("x", "abc")]
        (Schema.mk "custom" (some "n") none none (some "x") none none none
          none none none) =
      Except.error "failed to parse JSON: abc" := rfl

theorem c2_else_bucket_witness :
    build_value [("x", "7")]
        (Schema.mk "integer32" (some "n") none none (some "x") none none none
          none none none) = Except.ok (some (JValue.num 7)) :=
  (c2_else_bucket [("x", "7")] "integer32" "x" "7" (some "n") none none none
      none none none none none (by decide) (by decide) rfl).2.1
    (JValue.num 7) rfl (by simp)

/-- C5 (amended).  An `array*`-typed bound value is parsed directly as JSON
text; a `string`-typed bound value is used as the raw string, wrapped as a
JSON string value without parsing.  (The unamended claim — that `string`
bound values are also parsed as JSON — is refuted by `c5_counterexample`.) -/
theorem c5_array_string_builder (m : ArgMatches) (t a v : String)
    (nm d : Option String) (r ro : Option Bool) (ps : Option (List Schema))
    (it : Option Schema) (f : Option ResponseFormat) (cf : Option Bool)
    (ap : Option AdditionalPropSchema)
    (h3 : getOne m a = some v) :
    (t = "string" →
      build_value m (Schema.mk t nm d r (some a) ro ps it f cf ap) =
        Except.ok (some (JValue.str v)))
    ∧ (strStartsWith t "array" = true →
      (parseJson v = none →
        build_value m (Schema.mk t nm d r (some a) ro ps it f cf ap) =
          Except.error ("failed to parse JSON: " ++ v))
      ∧ (∀ j, parseJson v = some j → j ≠ JValue.null →
        build_value m (Schema.mk t nm d r (some a) ro ps it f cf ap) =
          Except.ok (some j))) := by
  constructor
  · intro ht
    subst ht
    simp [build_value, h3]
  · intro harr
    have h1 : t ≠ "object" := by
      intro he; subst he; exact absurd harr (by decide)
    have h2 : t ≠ "string" := by
      intro he; subst he; exact absurd harr (by decide)
    have := build_value_else m t a v nm d r ro ps it f cf ap h1 h2 h3
    exact ⟨this.1, this.2.1⟩

/-- A `string`-typed node with its argument bound to the literal text `[1]`
produces the JSON string `"[1]"`, not the parsed JSON array: `string` bound
values are not parsed as JSON. -/
theorem c5_counterexample :
    build_value [("x", "[1]")]
        (Schema.mk "string" (some "s") none none (some "x") none none none
          none none none) = Except.ok (some (JValue.str "[1]"))
    ∧ parseJson "[1]" = some (JValue.arr [JValue.num 1])
    ∧ JValue.str "[1]" ≠ JValue.arr [JValue.num 1] :=
  ⟨rfl, rfl, by simp⟩

theorem c5_array_string_builder_witness :
    build_value [("x", "abc")]
        (Schema.mk "string" (some "s") none none (some "x") none none none
          none none none) = Except.ok (some (JValue.str "abc"))
    ∧ build_value [("x", "[1]")]
        (Schema.mk "array" (some "s") none none (some "x") none none none
          none none none) = Except.ok (some (JValue.arr [JValue.num 1])) :=
  ⟨(c5_array_string_builder [("x", "abc")] "string" "x" "abc" (some "s") none
      none none none none none none none rfl).1 rfl,
   ((c5_array_string_builder [("x", "[1]")] "array" "x" "[1]" (some "s") none
      none none none none none none none rfl).2 (by decide)).2
     (JValue.arr [JValue.num 1]) rfl (by simp)⟩

/-! ## Command-index version resolution (claim C6) -/

theorem find?_eq_self (l : List String) (v : String) :
    l.find? (fun x => x = v) = if v ∈ l then some v else none := by
  induction l with
  | nil => rw [List.find?_nil, if_neg (List.not_mem_nil v)]
  | cons a l ih =>
    by_cases h : a = v
    · subst h
      simp [List.find?]
    · have hpa : (decide (a = v)) = false := by simp [h]
      rw [List.find?, hpa, ih]
      by_cases hm : v ∈ l
      · rw [if_pos hm, if_pos (List.mem_cons_of_mem a hm)]
      · have hnm : v ∉ a :: l := by
          intro hvm
          rcases List.mem_cons.mp hvm with hva | hvl
          · exact h hva.symm
          · exact hm hvl
        rw [if_neg hm, if_neg hnm]

theorem foldl_max_mem (vs : List String) :
    ∀ v, (vs.foldl (fun m x => if x < m then m else x) v) ∈ v :: vs := by
  induction vs with
  | nil => intro v; simp
  | cons w vs ih =>
    intro v
    rw [List.foldl_cons]
    by_cases h : w < v
    · rw [if_pos h]
      rcases List.mem_cons.mp (ih v) with h' | h'
      · rw [h']; exact List.mem_cons_self _ _
      · exact List.mem_cons_of_mem _ (List.mem_cons_of_mem _ h')
    · rw [if_neg h]
      rcases List.mem_cons.mp (ih w) with h' | h'
      · rw [h']; exact List.mem_cons_of_mem _ (List.mem_cons_self _ _)
      · exact List.mem_cons_of_mem _ (List.mem_cons_of_mem _ h')

theorem foldl_max_ub (vs : List String) :
    ∀ v x, x ∈ v :: vs →
      x ≤ vs.foldl (fun m y => if y < m then m else y) v := by
  induction vs with
  | nil =>
    intro v x hx
    rw [List.foldl_nil]
    rw [List.mem_singleton] at hx
    exact le_of_eq hx
  | cons w vs ih =>
    intro v x hx
    rw [List.foldl_cons]
    rcases List.mem_cons.mp hx with hxv | hx'
    · by_cases h : w < v
      · rw [if_pos h, hxv]
        exact ih v v (List.mem_cons_self _ _)
      · rw [if_neg h, hxv]
        exact le_trans (le_of_not_lt h) (ih w w (List.mem_cons_self _ _))
    · rcases List.mem_cons.mp hx' with hxw | hx''
      · by_cases h : w < v
        · rw [if_pos h, hxw]
          exact le_trans (le_of_lt h) (ih v v (List.mem_cons_self _ _))
        · rw [if_neg h, hxw]
          exact ih w w (List.mem_cons_self _ _)
      · by_cases h : w < v
        · rw [if_pos h]
          exact ih v x (List.mem_cons_of_mem _ hx'')
        · rw [if_neg h]
          exact ih w x (List.mem_cons_of_mem _ hx'')

/-- C6.  When the walk's current segment names a leaf command (and no child
group), any remaining positional segment is an "unknown argument" error;
with a requested version, location succeeds iff the version is among the
leaf's available versions and otherwise fails with the "api version ... not
available" error; with no requested version, the maximum version among the
leaf's available versions is chosen. -/
theorem c6_locate_command (apiVersion : Option String) (cg : CommandGroup)
    (parts : List String) (a : String) (rest : List String) (c : IndexCommand)
    (h1 : lookupGroup cg a = none) (h2 : lookupCommand cg a = some c) :
    (∀ r rs, rest = r :: rs →
      locate_loop apiVersion cg parts (a :: rest) =
        Except.error ("unknown argument " ++ r))
    ∧ (∀ ver, apiVersion = some ver → rest = [] →
      ((ver ∈ c.versions →
        locate_loop apiVersion cg parts (a :: rest) =
          Except.ok (String.intercalate "_" (parts ++ [a] ++ [ver]) ++ ".json"))
      ∧ (ver ∉ c.versions →
        locate_loop apiVersion cg parts (a :: rest) =
          Except.error ("api version " ++ ver ++ " not available"))))
    ∧ (apiVersion = none → rest = [] → c.versions ≠ [] →
      ∃ mx, mx ∈ c.versions ∧ (∀ x ∈ c.versions, x ≤ mx) ∧
        locate_loop apiVersion cg parts (a :: rest) =
          Except.ok (String.intercalate "_" (parts ++ [a] ++ [mx]) ++ ".json")) := by
  refine ⟨?_, ?_, ?_⟩
  · intro r rs hrest
    subst hrest
    simp only [locate_loop, h1, h2]
  · intro ver hv hrest
    subst hv
    subst hrest
    constructor
    · intro hmem
      simp only [locate_loop, h1, h2, find?_eq_self, if_pos hmem]
    · intro hmem
      simp only [locate_loop, h1, h2, find?_eq_self, if_neg hmem]
  · intro hv hrest hne
    subst hv
    subst hrest
    cases hcv : c.versions with
    | nil => exact absurd hcv hne
    | cons v vs =>
      refine ⟨vs.foldl (fun m x => if x < m then m else x) v, ?_, ?_, ?_⟩
      · exact foldl_max_mem vs v
      · exact fun x hx => foldl_max_ub vs v x hx
      · simp only [locate_loop, h1, h2, hcv, maxString]

theorem c6_locate_command_witness :
    locate_loop (some "2024-01-01")
      (CommandGroup.mk none
        (some [("show", IndexCommand.mk none ["2024-01-01", "2024-11-01"])])
        none)
      ["rp", "group"] ["show"] = Except.ok "rp_group_show_2024-01-01.json"
    ∧ locate_loop none
      (CommandGroup.mk none
        (some [("show", IndexCommand.mk none ["2024-01-01", "2024-11-01"])])
        none)
      ["rp", "group"] ["show", "extra"] =
        Except.error "unknown argument extra" := by
  constructor
  · have h := ((c6_locate_command (some "2024-01-01")
      (CommandGroup.mk none
        (some [("show", IndexCommand.mk none ["2024-01-01", "2024-11-01"])])
        none)
      ["rp", "group"] "show" []
      (IndexCommand.mk none ["2024-01-01", "2024-11-01"]) rfl rfl).2.1
        "2024-01-01" rfl rfl).1 (by simp)
    rw [h]
    rfl
  · have h := (c6_locate_command none
      (CommandGroup.mk none
        (some [("show", IndexCommand.mk none ["2024-01-01", "2024-11-01"])])
        none)
      ["rp", "group"] "show" ["extra"]
      (IndexCommand.mk none ["2024-01-01", "2024-11-01"]) rfl rfl).1
        "extra" [] rfl
    rw [h]
    rfl

/-! ## Query construction (claim C7) -/

theorem updQ_ne (q : String → Option String) (k v x : String) (h : x ≠ k) :
    updQ q k v x = q x := if_neg h

theorem updQ_self (q : String → Option String) (k v : String) :
    updQ q k v k = some v := if_pos rfl

theorem consts_fold_other (m : ArgMatches) (k : String)
    (hk : k ≠ "api-version") :
    ∀ (cs : List RequestQueryConst) (q : String → Option String),
      (cs.foldl (constStep m) q) k = q k := by
  intro cs
  induction cs with
  | nil => intro q; rfl
  | cons c cs ih =>
    intro q
    rw [List.foldl_cons, ih]
    by_cases h : c.name = "api-version"
    · have hne : k ≠ c.name := fun he => hk (he.trans h)
      rw [constStep, if_pos h]
      cases hg : getOne m "api-version"
      · exact updQ_ne q _ _ _ hne
      · exact updQ_ne q _ _ _ hne
    · rw [constStep, if_neg h]

theorem params_fold_unbound (m : ArgMatches) (k : String)
    (ps : List RequestQueryParam) :
    ∀ (q : String → Option String),
      (∀ p ∈ ps, p.name = k → getOne m p.arg = none) →
      (ps.foldl (paramStep m) q) k = q k := by
  induction ps with
  | nil => intro q _; rfl
  | cons p ps ih =>
    intro q h
    rw [List.foldl_cons, ih _ (fun p' hp' => h p' (by simp [hp']))]
    by_cases hn : p.name = k
    · rw [paramStep, h p (by simp) hn]
    · cases hg : getOne m p.arg
      · rw [paramStep, hg]
      · rw [paramStep, hg]
        exact updQ_ne q _ _ _ (fun he => hn he.symm)

theorem consts_fold_api (m : ArgMatches) (c : RequestQueryConst)
    (hname : c.name = "api-version") :
    ∀ (cs : List RequestQueryConst) (q : String → Option String),
      (∀ c' ∈ cs, c'.name = "api-version" → c' = c) →
      (cs.foldl (constStep m) q) "api-version" =
        if cs.any (fun c' => c'.name = "api-version") then
          some ((getOne m "api-version").getD c.default.value)
        else q "api-version" := by
  intro cs
  induction cs with
  | nil => intro q _; simp
  | cons c' cs ih =>
    intro q huniq
    rw [List.foldl_cons, ih _ (fun x hx => huniq x (by simp [hx]))]
    by_cases h : c'.name = "api-version"
    · have hcc : c' = c := huniq c' (by simp) h
      subst hcc
      have hstep : (constStep m q c') "api-version" =
          some ((getOne m "api-version").getD c'.default.value) := by
        rw [constStep, if_pos h]
        cases hg : getOne m "api-version"
        · rw [← h]
          exact updQ_self q _ _
        · rw [← h]
          exact updQ_self q _ _
      rw [hstep]
      simp [h]
    · rw [List.any_cons]
      have hstep : constStep m q c' = q := by rw [constStep, if_neg h]
      rw [hstep]
      simp [h]

theorem params_fold_bound (m : ArgMatches) (p : RequestQueryParam) (v : String)
    (hb : getOne m p.arg = some v) :
    ∀ (ps : List RequestQueryParam) (q : String → Option String),
      (∀ p' ∈ ps, p'.name = p.name → p' = p) →
      (ps.foldl (paramStep m) q) p.name =
        if ps.any (fun p' => p'.name = p.name) then some v
        else q p.name := by
  intro ps
  induction ps with
  | nil => intro q _; simp
  | cons p' ps ih =>
    intro q huniq
    rw [List.foldl_cons, ih _ (fun x hx => huniq x (by simp [hx]))]
    by_cases h : p'.name = p.name
    · have hpp : p' = p := huniq p' (by simp) h
      subst hpp
      have hstep : (paramStep m q p') p'.name = some v := by
        rw [paramStep, hb]
        exact updQ_self q _ _
      rw [hstep]
      simp [h]
    · have hstep : (paramStep m q p') p.name = q p.name := by
        cases hg : getOne m p'.arg
        · rw [paramStep, hg]
        · rw [paramStep, hg]
          exact updQ_ne q _ _ _ (fun he => h he.symm)
      rw [hstep, List.any_cons]
      simp [h]

/-- C7 (amended).  The built query contains the `api-version` pair for a
declared `api-version` constant (the user override when bound, the declared
default otherwise) and every declared dynamic parameter whose argument is
bound; unbound dynamic parameters are omitted, and — contrary to the
unamended claim, refuted by `c7_counterexample` — constant query parameters
other than `api-version` are not emitted ("Only handle api-version const
query so far"). -/
theorem c7_query_construction (consts : List RequestQueryConst)
    (params : Option (List RequestQueryParam)) (m : ArgMatches) :
    (∀ c ∈ consts, c.name = "api-version" →
      (∀ c' ∈ consts, c'.name = "api-version" → c' = c) →
      (∀ p ∈ params.getD [], p.name = "api-version" → getOne m p.arg = none) →
      build_query consts params m "api-version" =
        some ((getOne m "api-version").getD c.default.value))
    ∧ (∀ k, k ≠ "api-version" →
      (∀ p ∈ params.getD [], p.name = k → getOne m p.arg = none) →
      build_query consts params m k = none)
    ∧ (∀ p v, p ∈ params.getD [] → getOne m p.arg = some v →
      (∀ p' ∈ params.getD [], p'.name = p.name → p' = p) →
      build_query consts params m p.name = some v) := by
  refine ⟨?_, ?_, ?_⟩
  · intro c hc hname huniq hp
    have hw := consts_fold_api m c hname consts (fun _ => none) huniq
    have hany : consts.any (fun c' => c'.name = "api-version") = true :=
      List.any_eq_true.mpr ⟨c, hc, by simp [hname]⟩
    rw [hany, if_pos rfl] at hw
    cases params with
    | none => exact hw
    | some ps =>
      simp only [build_query]
      rw [params_fold_unbound m "api-version" ps _
        (by rw [Option.getD_some] at hp; exact hp)]
      exact hw
  · intro k hk hp
    cases params with
    | none =>
      simp only [build_query]
      rw [consts_fold_other m k hk consts _]
    | some ps =>
      simp only [build_query]
      rw [params_fold_unbound m k ps _
        (by rw [Option.getD_some] at hp; exact hp),
        consts_fold_other m k hk consts _]
  · intro p v hp hb huniq
    cases params with
    | none =>
      rw [Option.getD_none] at hp
      exact absurd hp (List.not_mem_nil p)
    | some ps =>
      simp only [Option.getD_some] at hp huniq
      simp only [build_query]
      have hfold := params_fold_bound m p v hb ps
        (consts.foldl (constStep m) (fun _ => none)) huniq
      have hany : ps.any (fun p' => p'.name = p.name) = true :=
        List.any_eq_true.mpr ⟨p, hp, by simp⟩
      rw [hany, if_pos rfl] at hfold
      exact hfold

/-- The constant query parameter `foo` (default `bar`) is not emitted at
all: the constants loop only handles `api-version`, so the query does not
contain every declared constant parameter. -/
theorem c7_counterexample :
    build_query
      [RequestQueryConst.mk "foo" "string" none none true
        (DefaultValue.mk "bar")] none [] "foo" = none := rfl

theorem c7_query_construction_witness :
    build_query
      [RequestQueryConst.mk "api-version" "string" none none true
        (DefaultValue.mk "2024-11-01")]
      (some [RequestQueryParam.mk "argX" "" "top" "string"])
      [("argX", "v1")] "api-version" = some "2024-11-01"
    ∧ build_query
      [RequestQueryConst.mk "api-version" "string" none none true
        (DefaultValue.mk "2024-11-01")]
      (some [RequestQueryParam.mk "argX" "" "top" "string"])
      [("argX", "v1")] "top" = some "v1"
    ∧ build_query
      [RequestQueryConst.mk "api-version" "string" none none true
        (DefaultValue.mk "2024-11-01")]
      (some [RequestQueryParam.mk "argX" "" "top" "string"])
      [("argX", "v1")] "other" = none := by
  have hpOther : ∀ k : String, k ≠ "top" →
      ∀ p ∈ (some [RequestQueryParam.mk "argX" "" "top" "string"]).getD
        ([] : List RequestQueryParam),
        p.name = k → getOne [("argX", "v1")] p.arg = none := by
    intro k hk p hp hname
    rw [Option.getD_some, List.mem_singleton] at hp
    subst hp
    exact absurd hname.symm hk
  refine ⟨?_, ?_, ?_⟩
  · exact (c7_query_construction _ _ _).1
      (RequestQueryConst.mk "api-version" "string" none none true
        (DefaultValue.mk "2024-11-01"))
      (List.mem_singleton.mpr rfl) rfl
      (by
        intro c' hc' _
        rw [List.mem_singleton] at hc'
        exact hc')
      (hpOther "api-version" (by decide))
  · exact (c7_query_construction _ _ _).2.2
      (RequestQueryParam.mk "argX" "" "top" "string") "v1"
      (List.mem_singleton.mpr rfl) rfl
      (by
        intro p' hp' _
        rw [Option.getD_some, List.mem_singleton] at hp'
        exact hp')
  · exact (c7_query_construction _ _ _).2.1 "other" (by decide)
      (hpOther "other" (by decide))

end AzRs
